import Mathlib

/-!
Verification of the response-caching middleware of a Node/Express API
boilerplate (src/middleware/cache.ts, src/config/redis.ts).

Strings are modelled as lists of characters (`Str`), so that byte-level
reasoning about key construction and payloads can use the list API.
Request payloads are modelled at the byte level: the value a handler
passes to `res.json` is represented by its serialized bytes, since the
middleware stores `JSON.stringify(data)` and a cache hit replies with
`res.json(JSON.parse(stored))`, whose wire bytes are the stored bytes
again (JSON.parse inverts JSON.stringify on JSON-representable data).
-/

set_option autoImplicit false

namespace Spec2Proof

/-- Byte strings, modelled as lists of characters. -/
abbrev Str := List Char

/-- JSON string escaping of one character, as performed by
`JSON.stringify`: a double quote becomes backslash-quote, a backslash
becomes a doubled backslash, and every other character is emitted
unchanged.  Control-character escapes are irrelevant to the properties
proved here and are elided. -/
def escChar (c : Char) : Str :=
  if c = '"' then ['\\', '"']
  else if c = '\\' then ['\\', '\\']
  else [c]

/-- JSON string escaping of a whole string. -/
def esc : Str → Str
  | [] => []
  | c :: t => escChar c ++ esc t

/-- Decoder for the escaped form: scans up to the first unescaped double
quote and returns the unescaped content together with the remainder of
the input.  Used to show that JSON string serialization is a prefix
code. -/
def unesc : Str → Option (Str × Str)
  | [] => none
  | c :: t =>
    if c = '"' then some ([], t)
    else if c = '\\' then
      match t with
      | [] => none
      | c2 :: t2 => (unesc t2).map fun p => (c2 :: p.1, p.2)
    else (unesc t).map fun p => (c :: p.1, p.2)

/-- The serialized body of a JSON string value:
opening quote, escaped content, closing quote. -/
def jstr (s : Str) : Str := '"' :: esc s ++ ['"']

/-- Serialization of one key/value member of a JSON object, as
`JSON.stringify` prints it (no whitespace). -/
def jitem (k v : Str) : Str := jstr k ++ ':' :: jstr v

/-- Serialization of the members of a JSON object, comma separated. -/
def jentries : List (Str × Str) → Str
  | [] => []
  | [(k, v)] => jitem k v
  | (k, v) :: e :: t => jitem k v ++ ',' :: jentries (e :: t)

/-- Serialization of the query-parameter mapping as a JSON object: this
is the `JSON.stringify(req.query)` appearing in `generateCacheKey`, for
a flat mapping of string parameters in insertion order. -/
def jsonOfQuery (q : List (Str × Str)) : Str := '{' :: jentries q ++ ['}']

theorem unesc_cons_quote (t : Str) : unesc ('"' :: t) = some ([], t) := by
  rw [unesc.eq_def]
  simp

theorem unesc_cons_backslash (c2 : Char) (t2 : Str) :
    unesc ('\\' :: c2 :: t2) = (unesc t2).map fun p => (c2 :: p.1, p.2) := by
  rw [unesc.eq_def]
  simp

theorem unesc_cons_other (c : Char) (t : Str) (h1 : c ≠ '"') (h2 : c ≠ '\\') :
    unesc (c :: t) = (unesc t).map fun p => (c :: p.1, p.2) := by
  rw [unesc.eq_def]
  simp [h1, h2]

theorem unesc_esc (s : Str) : ∀ r : Str, unesc (esc s ++ '"' :: r) = some (s, r) := by
  induction s with
  | nil =>
    intro r
    rw [esc, List.nil_append, unesc_cons_quote]
  | cons c t ih =>
    intro r
    by_cases h1 : c = '"'
    · subst h1
      rw [esc, show escChar '"' = ['\\', '"'] from rfl]
      simp only [List.cons_append, List.nil_append]
      rw [unesc_cons_backslash]
      simp [ih r]
    · by_cases h2 : c = '\\'
      · subst h2
        rw [esc, show escChar '\\' = ['\\', '\\'] from rfl]
        simp only [List.cons_append, List.nil_append]
        rw [unesc_cons_backslash]
        simp [ih r]
      · rw [esc, escChar, if_neg h1, if_neg h2]
        simp only [List.cons_append, List.nil_append]
        rw [unesc_cons_other c _ h1 h2]
        simp [ih r]

/-- JSON string serialization is a prefix code: equal serialized streams
that continue after the closing quote force equal contents and equal
continuations. -/
theorem esc_close_inj {s1 s2 r1 r2 : Str}
    (h : esc s1 ++ '"' :: r1 = esc s2 ++ '"' :: r2) : s1 = s2 ∧ r1 = r2 := by
  have h2 := congrArg unesc h
  rw [unesc_esc s1 r1, unesc_esc s2 r2] at h2
  have h3 := Option.some.inj h2
  exact ⟨congrArg Prod.fst h3, congrArg Prod.snd h3⟩

/-- Unfolding of a nonempty object-member list followed by a
continuation. -/
theorem jentries_cons_append (k v : Str) (t : List (Str × Str)) (r : Str) :
    jentries ((k, v) :: t) ++ r =
      '"' :: (esc k ++ '"' :: (':' :: '"' :: (esc v ++ '"' ::
        (match t with
         | [] => r
         | e :: t2 => ',' :: (jentries (e :: t2) ++ r))))) := by
  cases t with
  | nil => simp [jentries, jitem, jstr]
  | cons e t2 => simp [jentries, jitem, jstr]

/-- Object-member serialization is unambiguous up to the closing brace:
equal member streams terminated by a closing brace and continuations
force equal member lists and continuations. -/
theorem jentries_close_inj :
    ∀ (l1 l2 : List (Str × Str)) (r1 r2 : Str),
      jentries l1 ++ '}' :: r1 = jentries l2 ++ '}' :: r2 → l1 = l2 ∧ r1 = r2 := by
  intro l1
  induction l1 with
  | nil =>
    intro l2 r1 r2 h
    cases l2 with
    | nil =>
      simp [jentries] at h
      exact ⟨rfl, h⟩
    | cons p t =>
      obtain ⟨k, v⟩ := p
      rw [jentries_cons_append] at h
      simp [jentries] at h
  | cons p t1 ih =>
    intro l2 r1 r2 h
    obtain ⟨k1, v1⟩ := p
    cases l2 with
    | nil =>
      rw [jentries_cons_append] at h
      simp [jentries] at h
    | cons p2 t2 =>
      obtain ⟨k2, v2⟩ := p2
      rw [jentries_cons_append, jentries_cons_append] at h
      have h' := (List.cons.inj h).2
      obtain ⟨hk, htail⟩ := esc_close_inj h'
      subst hk
      have htail' := (List.cons.inj htail).2
      have htail'' := (List.cons.inj htail').2
      obtain ⟨hv, hrest⟩ := esc_close_inj htail''
      subst hv
      cases t1 with
      | nil =>
        cases t2 with
        | nil =>
          refine ⟨rfl, ?_⟩
          exact (List.cons.inj hrest).2
        | cons e2 s2 => simp at hrest
      | cons e1 s1 =>
        cases t2 with
        | nil => simp at hrest
        | cons e2 s2 =>
          have hrest' := (List.cons.inj hrest).2
          obtain ⟨ht, hr⟩ := ih (e2 :: s2) r1 r2 hrest'
          exact ⟨by rw [ht], hr⟩

/-- The JSON serialization of the query mapping is injective. -/
theorem jsonOfQuery_inj {q1 q2 : List (Str × Str)}
    (h : jsonOfQuery q1 = jsonOfQuery q2) : q1 = q2 := by
  unfold jsonOfQuery at h
  have h' := (List.cons.inj h).2
  have h'' : jentries q1 ++ '}' :: [] = jentries q2 ++ '}' :: [] := by
    simpa using h'
  exact (jentries_close_inj q1 q2 [] [] h'').1

/-- Characters a well-formed URL query transmits unencoded
(alphanumerics and the unreserved marks); every other character is
percent-encoded on the wire. -/
def allowedChar (c : Char) : Bool :=
  c.isAlphanum || c = '-' || c = '.' || c = '_' || c = '~'

/-- Hexadecimal digit characters used by percent-encoding. -/
def hexDigit (n : Fin 16) : Char :=
  if n.val < 10 then Char.ofNat (48 + n.val) else Char.ofNat (55 + n.val)

/-- Percent-encoding of one character as it appears on the wire:
unreserved characters stand for themselves, anything else is a percent
sign followed by two hexadecimal digits.  (Multi-byte UTF-8 expansion is
collapsed to one escape; only the emitted alphabet matters here.) -/
def pctChar (c : Char) : Str :=
  if allowedChar c then [c]
  else ['%', hexDigit ⟨c.toNat / 16 % 16, Nat.mod_lt _ (by decide)⟩,
        hexDigit ⟨c.toNat % 16, Nat.mod_lt _ (by decide)⟩]

/-- Percent-encoding of a whole string. -/
def pct : Str → Str
  | [] => []
  | c :: t => pctChar c ++ pct t

/-- The raw query string of the request line: percent-encoded
`key=value` pairs joined by ampersands, in insertion order. -/
def renderQS : List (Str × Str) → Str
  | [] => []
  | [(k, v)] => pct k ++ '=' :: pct v
  | (k, v) :: e :: t => pct k ++ '=' :: pct v ++ '&' :: renderQS (e :: t)

/-- An inbound HTTP request, reduced to the fields the caching layer
reads: method, pathname, and the parsed query-parameter mapping (flat
string pairs in insertion order, as the query-string parser yields
them). -/
structure Request where
  method : Str
  path : Str
  query : List (Str × Str)
deriving DecidableEq

/-- Express's `req.originalUrl`: the URL as sent on the request line,
that is the pathname followed, when the query mapping is non-empty, by a
question mark and the raw query string.  (For a well-formed request the
raw query string is the percent-encoded rendering of the parsed
mapping.) -/
def originalUrl (req : Request) : Str :=
  req.path ++ (match req.query with
    | [] => []
    | _ => '?' :: renderQS req.query)

/-- Translation of `generateCacheKey` (src/middleware/cache.ts, lines
19 to 24): the base key is the method and `req.originalUrl` joined by a
colon; when the query mapping is non-empty a colon and
`JSON.stringify(req.query)` are appended; a supplied key namespace is
prepended with a colon. -/
def generateCacheKey (req : Request) (pre : Option Str) : Str :=
  let baseKey := req.method ++ ':' :: originalUrl req
  let queryString := (match req.query with
    | [] => []
    | _ => ':' :: jsonOfQuery req.query)
  match pre with
  | some p => p ++ ':' :: (baseKey ++ queryString)
  | none => baseKey ++ queryString

/-- The part of the cache key that depends on the query mapping. -/
def qtail (q : List (Str × Str)) : Str :=
  match q with
  | [] => []
  | _ => '?' :: (renderQS q ++ ':' :: jsonOfQuery q)

theorem generateCacheKey_factor (m p : Str) (pre : Option Str) (q : List (Str × Str)) :
    generateCacheKey ⟨m, p, q⟩ pre =
      (match pre with | some s => s ++ [':'] | none => []) ++
        (m ++ ':' :: (p ++ qtail q)) := by
  cases pre with
  | none =>
    cases q with
    | nil => simp [generateCacheKey, originalUrl, qtail]
    | cons e t => simp [generateCacheKey, originalUrl, qtail]
  | some s =>
    cases q with
    | nil => simp [generateCacheKey, originalUrl, qtail]
    | cons e t => simp [generateCacheKey, originalUrl, qtail]

theorem quote_not_mem_pctChar (c : Char) : '"' ∉ pctChar c := by
  unfold pctChar
  by_cases h : allowedChar c
  · rw [if_pos h]
    intro hm
    rw [List.mem_singleton] at hm
    subst hm
    exact absurd h (by decide)
  · rw [if_neg h]
    intro hm
    simp only [List.mem_cons, List.not_mem_nil, or_false] at hm
    have hhex : ∀ a : Fin 16, ¬ ('"' = hexDigit a) := by decide
    rcases hm with hm | hm | hm
    · exact absurd hm (by decide)
    · exact hhex _ hm
    · exact hhex _ hm

theorem quote_not_mem_pct (s : Str) : '"' ∉ pct s := by
  induction s with
  | nil => simp [pct]
  | cons c t ih =>
    rw [pct]
    intro hm
    rcases List.mem_append.mp hm with h | h
    · exact quote_not_mem_pctChar c h
    · exact ih h

theorem quote_not_mem_renderQS (q : List (Str × Str)) : '"' ∉ renderQS q := by
  induction q with
  | nil => simp [renderQS]
  | cons e t ih =>
    obtain ⟨k, v⟩ := e
    cases t with
    | nil =>
      intro hm
      rw [renderQS] at hm
      simp only [List.mem_append, List.mem_cons, List.not_mem_nil, or_false] at hm
      rcases hm with h | h | h
      · exact quote_not_mem_pct k h
      · exact absurd h (by decide)
      · exact quote_not_mem_pct v h
    | cons e2 t2 =>
      intro hm
      rw [renderQS] at hm
      simp only [List.mem_append, List.mem_cons] at hm
      rcases hm with (h | h | h) | h | h
      · exact quote_not_mem_pct k h
      · exact absurd h (by decide)
      · exact quote_not_mem_pct v h
      · exact absurd h (by decide)
      · exact ih h

theorem takeWhile_append_all {α : Type} (p : α → Bool) (l1 l2 : List α)
    (h : ∀ a ∈ l1, p a = true) :
    (l1 ++ l2).takeWhile p = l1 ++ l2.takeWhile p := by
  induction l1 with
  | nil => simp
  | cons a t ih =>
    have ha := h a (List.mem_cons_self a t)
    have ht := ih fun b hb => h b (List.mem_cons_of_mem a hb)
    simp [List.takeWhile_cons, ha, ht]

theorem qtail_takeWhile (q : List (Str × Str)) (hq : q ≠ []) :
    (renderQS q ++ ':' :: jsonOfQuery q).takeWhile (fun c => c ≠ '"') =
      renderQS q ++ [':', '{'] := by
  rw [takeWhile_append_all _ (renderQS q) _
      (fun a ha => by
        simp only [decide_eq_true_eq, ne_eq]
        intro hcontra
        exact quote_not_mem_renderQS q (hcontra ▸ ha))]
  cases q with
  | nil => exact absurd rfl hq
  | cons e t =>
    obtain ⟨k, v⟩ := e
    rw [jsonOfQuery, List.cons_append, jentries_cons_append]
    simp [List.takeWhile_cons]

/-- The query-dependent part of the cache key determines the query
mapping. -/
theorem qtail_inj {q1 q2 : List (Str × Str)} (h : qtail q1 = qtail q2) :
    q1 = q2 := by
  cases q1 with
  | nil =>
    cases q2 with
    | nil => rfl
    | cons e2 t2 => simp [qtail] at h
  | cons e1 t1 =>
    cases q2 with
    | nil => simp [qtail] at h
    | cons e2 t2 =>
      have hq1 : qtail (e1 :: t1) =
          '?' :: (renderQS (e1 :: t1) ++ ':' :: jsonOfQuery (e1 :: t1)) := rfl
      have hq2 : qtail (e2 :: t2) =
          '?' :: (renderQS (e2 :: t2) ++ ':' :: jsonOfQuery (e2 :: t2)) := rfl
      rw [hq1, hq2] at h
      have h' := (List.cons.inj h).2
      have htw := congrArg (List.takeWhile (fun c => c ≠ '"')) h'
      rw [qtail_takeWhile (e1 :: t1) (List.cons_ne_nil e1 t1),
        qtail_takeWhile (e2 :: t2) (List.cons_ne_nil e2 t2)] at htw
      have hlen : (renderQS (e1 :: t1)).length = (renderQS (e2 :: t2)).length := by
        have := congrArg List.length htw
        simp at this
        exact this
      obtain ⟨hr, _⟩ := List.append_inj htw hlen
      rw [hr] at h'
      have hjson := (List.cons.inj (List.append_cancel_left h')).2
      exact jsonOfQuery_inj hjson

/-- Per-route configuration of the cache middleware, with the defaults
of `cacheMiddleware` (src/middleware/cache.ts, lines 29 to 34): TTL 300
seconds, key namespace "api", caching enabled. -/
structure CacheOptions where
  ttl : Nat := 300
  keyPrefix : Str := "api".data
  skipCache : Bool := false

/-- State of the backing store as the middleware observes it during one
request: the availability flag maintained by the connection event
handlers (src/config/redis.ts, lines 111 to 113), the stored entries,
and whether the lookup (`cache.get`, or the `JSON.parse` of its result)
throws on this request. -/
structure RedisConn where
  available : Bool
  entries : List (Str × Str)
  getThrows : Bool
deriving DecidableEq

/-- First-match association lookup, the model of `cache.get` against the
stored entries. -/
def assocGet : List (Str × Str) → Str → Option Str
  | [], _ => none
  | (k, v) :: t, key => if k = key then some v else assocGet t key

/-- Everything observable about one pass of the middleware itself: the
cache-status and cache-key response headers, whether `next()` ran,
whether the response-capturing `res.json` override was installed,
the body the middleware itself emitted (on a short-circuit hit),
whether the error logger ran, and whether the store was contacted. -/
structure MWResult where
  xCache : Option Str
  xCacheKey : Option Str
  handlerInvoked : Bool
  jsonOverridden : Bool
  body : Option Str
  errorLogged : Bool
  storeQueried : Bool
deriving DecidableEq

/-- Translation of the request interceptor returned by `cacheMiddleware`
(src/middleware/cache.ts, lines 36 to 137).  Non-GET or skip-flag
requests fall through with no headers; an unavailable store falls
through with the SKIP header; otherwise the key is derived and the store
queried: a throwing lookup logs, sets the ERROR header and falls
through; a present value short-circuits with the HIT headers and the
stored bytes (the code replies `res.json(JSON.parse(stored))`, whose
wire bytes are the stored bytes); an absent value sets the MISS headers,
installs the `res.json` override and falls through. -/
def cacheMiddleware (opts : CacheOptions) (conn : RedisConn) (req : Request) : MWResult :=
  if req.method ≠ "GET".data ∨ opts.skipCache then
    ⟨none, none, true, false, none, false, false⟩
  else if ¬ conn.available then
    ⟨some "SKIP".data, none, true, false, none, false, false⟩
  else
    let cacheKey := generateCacheKey req (some opts.keyPrefix)
    if conn.getThrows then
      ⟨some "ERROR".data, none, true, false, none, true, true⟩
    else
      match assocGet conn.entries cacheKey with
      | some v => ⟨some "HIT".data, some cacheKey, false, false, some v, false, true⟩
      | none => ⟨some "MISS".data, some cacheKey, true, true, none, false, true⟩

/-- Observable outcome of a whole request: the middleware pass, the
bytes the client receives, and the store contents afterwards. -/
structure Outcome where
  result : MWResult
  clientBody : Option Str
  storeAfter : List (Str × Str)
deriving DecidableEq

/-- One full request through the middleware and, when it falls through,
the downstream handler: `d` is the serialized payload the handler passes
to `res.json`, and `availAtEmit` is the availability flag at the moment
that call runs — the scheduled `setex` is guarded by a second
`redis.isAvailable()` check at that moment (src/middleware/cache.ts,
lines 92 to 116).  A performed write puts the new entry in front, so a
later lookup sees it (the overwrite semantics of `setex`). -/
def handleRequest (opts : CacheOptions) (conn : RedisConn) (req : Request)
    (d : Str) (availAtEmit : Bool) : Outcome :=
  let m := cacheMiddleware opts conn req
  let cacheKey := generateCacheKey req (some opts.keyPrefix)
  if m.handlerInvoked then
    { result := m
      clientBody := some d
      storeAfter :=
        if m.jsonOverridden && availAtEmit then (cacheKey, d) :: conn.entries
        else conn.entries }
  else
    { result := m, clientBody := m.body, storeAfter := conn.entries }

/-- The store as `getCacheStats` observes it: the availability flag, a
flag saying whether the `info` commands throw on this call, and the
three section texts the store would answer with. -/
structure StatsConn where
  available : Bool
  infoThrows : Bool
  memoryInfo : Str
  keyspaceInfo : Str
  statsInfo : Str
deriving DecidableEq

/-- Remainder of `s` after the first occurrence of `pat`, if any: the
model of anchoring a regular-expression match at the first position
where its literal part occurs. -/
def afterFirst (pat : Str) : Str → Option Str
  | [] => if pat.isPrefixOf ([] : Str) then some [] else none
  | c :: t =>
    if pat.isPrefixOf (c :: t) then some ((c :: t).drop pat.length)
    else afterFirst pat t

/-- Capture group of a match of the form literal-then-character-class:
the characters after the first occurrence of `pat`, up to the first
character satisfying `stop`. -/
def captureUntil (pat : Str) (stop : Char → Bool) (s : Str) : Option Str :=
  (afterFirst pat s).map (List.takeWhile fun c => ! stop c)

/-- Capture group of a match of the form literal-then-digits: the run of
digits after the first occurrence of `pat`, parsed as a number; no match
when no digit follows. -/
def digitsAfter (pat : Str) (s : Str) : Option Nat :=
  match afterFirst pat s with
  | none => none
  | some r =>
    let ds := r.takeWhile Char.isDigit
    if ds = [] then none
    else some (ds.foldl (fun acc c => 10 * acc + (c.toNat - 48)) 0)

/-- The record `getCacheStats` resolves with.  The hit rate is a
percentage; it is absent when the stats section lacks the hit and miss
counters. -/
structure CacheStats where
  totalKeys : Nat
  memoryUsage : Str
  hitRate : Option ℚ
deriving DecidableEq

/-- Translation of `getCacheStats` (src/middleware/cache.ts, lines 182
to 230).  An unavailable store yields the degraded record at once; when
the store is available the three `info` sections are fetched — a throw
there is caught, logged and rethrown — and parsed with the literal
patterns of the source's regular expressions. -/
def getCacheStats (conn : StatsConn) : Except Unit CacheStats :=
  if ¬ conn.available then
    .ok ⟨0, "unavailable".data, some 0⟩
  else if conn.infoThrows then
    .error ()
  else
    let memoryUsage :=
      (captureUntil "used_memory_human:".data (fun c => c = '\r' || c = '\n')
        conn.memoryInfo).getD "unknown".data
    let totalKeys := (digitsAfter "keys=".data conn.keyspaceInfo).getD 0
    let hitRate :=
      match digitsAfter "keyspace_hits:".data conn.statsInfo,
            digitsAfter "keyspace_misses:".data conn.statsInfo with
      | some hits, some misses =>
        if hits + misses > 0 then
          some (((hits : ℚ) / ((hits : ℚ) + (misses : ℚ))) * 100)
        else some 0
      | _, _ => none
    .ok ⟨totalKeys, memoryUsage, hitRate⟩

/-- The store as `invalidateCache` observes it: the availability flag,
the store's reply to the `keys(pattern)` enumeration (a key list, or a
throw), and its reply to the `del(...keys)` bulk delete (a deletion
count, or a throw). -/
structure InvConn where
  available : Bool
  keysOutcome : Except Unit (List Str)
  delOutcome : Except Unit Nat

/-- Translation of `invalidateCache` (src/middleware/cache.ts, lines 143
to 177).  An unavailable store logs a warning and yields 0; an empty
enumeration yields 0; otherwise the matched keys are deleted and the
count returned.  A throw from the enumeration or the deletion is caught,
logged and rethrown. -/
def invalidateCache (conn : InvConn) (pattern : Str) : Except Unit Nat :=
  if ¬ conn.available then .ok 0
  else
    match conn.keysOutcome with
    | .error e => .error e
    | .ok keys =>
      if keys.length = 0 then .ok 0
      else
        match conn.delOutcome with
        | .error e => .error e
        | .ok n => .ok n

/-- C2: the cache-key derivation is deterministic and query-sensitive —
for a fixed method, path and key namespace, two requests receive the
same key exactly when their query-parameter mappings coincide; in
particular identical requests always share a key and a differing query
parameter value always separates the keys. -/
theorem generateCacheKey_deterministic_query_sensitive
    (m p : Str) (pre : Option Str) (q1 q2 : List (Str × Str)) :
    generateCacheKey ⟨m, p, q1⟩ pre = generateCacheKey ⟨m, p, q2⟩ pre ↔ q1 = q2 := by
  constructor
  · intro h
    rw [generateCacheKey_factor, generateCacheKey_factor] at h
    have h1 := List.append_cancel_left h
    have h2 := List.append_cancel_left h1
    have h3 := (List.cons.inj h2).2
    have h4 := List.append_cancel_left h3
    exact qtail_inj h4
  · intro h
    rw [h]

/-- Modelled from the spec: the key shape the claim asserts, in which
the path component is the bare request pathname, not duplicating the
query string. -/
def specDeriveKey (req : Request) (pre : Option Str) : Str :=
  let base := req.method ++ ':' :: req.path
  let queryString := (match req.query with
    | [] => []
    | _ => ':' :: jsonOfQuery req.query)
  match pre with
  | some p => p ++ ':' :: (base ++ queryString)
  | none => base ++ queryString

/-- C3 counterexample: for a concrete GET request with one query
parameter, the key the code derives differs from the claimed shape,
because the URL component of the real key carries the raw query string
as well. -/
theorem generateCacheKey_ne_specDeriveKey :
    generateCacheKey ⟨"GET".data, "/users".data, [("a".data, "1".data)]⟩
        (some "api".data) ≠
      specDeriveKey ⟨"GET".data, "/users".data, [("a".data, "1".data)]⟩
        (some "api".data) := by
  decide

/-- C3 amended: the derived key is the prefix, the method and
`req.originalUrl` joined by colons, with a colon and the JSON
serialization of the query mapping appended exactly when that mapping is
non-empty — and `req.originalUrl` itself already ends in the raw query
string whenever the query mapping is non-empty, so the query appears in
the URL component as well. -/
theorem generateCacheKey_shape (req : Request) (p : Str) :
    (generateCacheKey req (some p) =
      p ++ ':' :: (req.method ++ ':' :: (originalUrl req ++
        (match req.query with
         | [] => []
         | _ => ':' :: jsonOfQuery req.query)))) ∧
    (req.query ≠ [] → originalUrl req = req.path ++ '?' :: renderQS req.query) := by
  constructor
  · cases hq : req.query with
    | nil => simp [generateCacheKey, hq]
    | cons e t => simp [generateCacheKey, hq]
  · intro h
    cases hq : req.query with
    | nil => exact absurd hq h
    | cons e t => simp [originalUrl, hq]

/-- C3 amended witness at a concrete request with a non-empty query. -/
theorem generateCacheKey_shape_witness :
    originalUrl ⟨"GET".data, "/users".data, [("a".data, "1".data)]⟩ =
      "/users".data ++ '?' ::
        renderQS [("a".data, "1".data)] :=
  (generateCacheKey_shape ⟨"GET".data, "/users".data, [("a".data, "1".data)]⟩
    "api".data).2 (by decide)

/-- C1: a GET whose derived key has no stored entry is marked MISS and
runs the downstream handler; an immediately following identical GET
against the resulting store — the store staying available and nothing
thrown in between — is marked HIT, carries a client body byte-identical
to the first response's body, and does not run the downstream
handler. -/
theorem cache_miss_then_hit (opts : CacheOptions) (conn : RedisConn) (req : Request)
    (d d2 : Str) (av2 : Bool)
    (hm : req.method = "GET".data) (hs : opts.skipCache = false)
    (ha : conn.available = true) (hg : conn.getThrows = false)
    (hnone : assocGet conn.entries (generateCacheKey req (some opts.keyPrefix)) = none) :
    (handleRequest opts conn req d true).result.xCache = some "MISS".data ∧
    (handleRequest opts conn req d true).result.handlerInvoked = true ∧
    (handleRequest opts conn req d true).clientBody = some d ∧
    (handleRequest opts
        { conn with entries := (handleRequest opts conn req d true).storeAfter }
        req d2 av2).result.xCache = some "HIT".data ∧
    (handleRequest opts
        { conn with entries := (handleRequest opts conn req d true).storeAfter }
        req d2 av2).clientBody = (handleRequest opts conn req d true).clientBody ∧
    (handleRequest opts
        { conn with entries := (handleRequest opts conn req d true).storeAfter }
        req d2 av2).result.handlerInvoked = false := by
  have hcm : cacheMiddleware opts conn req =
      ⟨some "MISS".data, some (generateCacheKey req (some opts.keyPrefix)),
        true, true, none, false, true⟩ := by
    rw [cacheMiddleware]
    rw [if_neg (by simp [hm, hs]), if_neg (by simp [ha])]
    simp [hg, hnone]
  have h1 : handleRequest opts conn req d true =
      { result := cacheMiddleware opts conn req
        clientBody := some d
        storeAfter := (generateCacheKey req (some opts.keyPrefix), d) :: conn.entries } := by
    rw [handleRequest]
    simp [hcm]
  have hcm2 : cacheMiddleware opts
      { conn with entries := (generateCacheKey req (some opts.keyPrefix), d) :: conn.entries }
      req =
      ⟨some "HIT".data, some (generateCacheKey req (some opts.keyPrefix)),
        false, false, some d, false, true⟩ := by
    rw [cacheMiddleware]
    rw [if_neg (by simp [hm, hs]), if_neg (by simp [ha])]
    simp [hg, assocGet]
  have h2 : handleRequest opts
      { conn with entries := (generateCacheKey req (some opts.keyPrefix), d) :: conn.entries }
      req d2 av2 =
      { result := ⟨some "HIT".data, some (generateCacheKey req (some opts.keyPrefix)),
          false, false, some d, false, true⟩
        clientBody := some d
        storeAfter := (generateCacheKey req (some opts.keyPrefix), d) :: conn.entries } := by
    rw [handleRequest]
    simp [hcm2]
  refine ⟨?_, ?_, ?_, ?_, ?_, ?_⟩ <;> simp [h1, hcm, h2]

/-- C1 witness: a concrete GET on an empty store. -/
theorem cache_miss_then_hit_witness :
    (handleRequest {} ⟨true, [], false⟩ ⟨"GET".data, "/u".data, []⟩ "X".data
        true).result.xCache = some "MISS".data ∧
    (handleRequest {} ⟨true, [], false⟩ ⟨"GET".data, "/u".data, []⟩ "X".data
        true).result.handlerInvoked = true ∧
    (handleRequest {} ⟨true, [], false⟩ ⟨"GET".data, "/u".data, []⟩ "X".data
        true).clientBody = some "X".data ∧
    (handleRequest {}
        { available := true, entries := (handleRequest {} ⟨true, [], false⟩
            ⟨"GET".data, "/u".data, []⟩ "X".data true).storeAfter, getThrows := false }
        ⟨"GET".data, "/u".data, []⟩ "Y".data false).result.xCache = some "HIT".data ∧
    (handleRequest {}
        { available := true, entries := (handleRequest {} ⟨true, [], false⟩
            ⟨"GET".data, "/u".data, []⟩ "X".data true).storeAfter, getThrows := false }
        ⟨"GET".data, "/u".data, []⟩ "Y".data false).clientBody =
      (handleRequest {} ⟨true, [], false⟩ ⟨"GET".data, "/u".data, []⟩ "X".data
        true).clientBody ∧
    (handleRequest {}
        { available := true, entries := (handleRequest {} ⟨true, [], false⟩
            ⟨"GET".data, "/u".data, []⟩ "X".data true).storeAfter, getThrows := false }
        ⟨"GET".data, "/u".data, []⟩ "Y".data false).result.handlerInvoked = false :=
  cache_miss_then_hit {} ⟨true, [], false⟩ ⟨"GET".data, "/u".data, []⟩
    "X".data "Y".data false rfl rfl rfl rfl rfl

/-- C4: when the cache lookup of a cacheable GET throws, the middleware
logs the failure, marks the response ERROR, and still falls through to
the downstream handler, whose payload reaches the client — the
caching-layer error never fails the request. -/
theorem cache_lookup_error_best_effort (opts : CacheOptions) (conn : RedisConn)
    (req : Request) (d : Str) (av : Bool)
    (hm : req.method = "GET".data) (hs : opts.skipCache = false)
    (ha : conn.available = true) (hg : conn.getThrows = true) :
    (cacheMiddleware opts conn req).errorLogged = true ∧
    (cacheMiddleware opts conn req).xCache = some "ERROR".data ∧
    (cacheMiddleware opts conn req).handlerInvoked = true ∧
    (handleRequest opts conn req d av).clientBody = some d := by
  have hcm : cacheMiddleware opts conn req =
      ⟨some "ERROR".data, none, true, false, none, true, true⟩ := by
    rw [cacheMiddleware]
    rw [if_neg (by simp [hm, hs]), if_neg (by simp [ha])]
    simp [hg]
  refine ⟨?_, ?_, ?_, ?_⟩ <;> simp [hcm, handleRequest]

/-- C4 witness: a concrete GET against a store whose lookup throws. -/
theorem cache_lookup_error_best_effort_witness :
    (cacheMiddleware {} ⟨true, [], true⟩ ⟨"GET".data, "/u".data, []⟩).errorLogged = true ∧
    (cacheMiddleware {} ⟨true, [], true⟩
      ⟨"GET".data, "/u".data, []⟩).xCache = some "ERROR".data ∧
    (cacheMiddleware {} ⟨true, [], true⟩ ⟨"GET".data, "/u".data, []⟩).handlerInvoked = true ∧
    (handleRequest {} ⟨true, [], true⟩ ⟨"GET".data, "/u".data, []⟩ "X".data
      true).clientBody = some "X".data :=
  cache_lookup_error_best_effort {} ⟨true, [], true⟩ ⟨"GET".data, "/u".data, []⟩
    "X".data true rfl rfl rfl rfl

/-- C7 counterexample: a POST request enters the bypass path — no store
interaction, handler runs — yet the response carries no SKIP marker at
all, against the claim that every bypassed request is marked SKIP. -/
theorem bypass_post_without_skip_marker :
    (cacheMiddleware {} ⟨true, [], false⟩
        ⟨"POST".data, "/u".data, []⟩).storeQueried = false ∧
    (cacheMiddleware {} ⟨true, [], false⟩
        ⟨"POST".data, "/u".data, []⟩).handlerInvoked = true ∧
    ¬ (cacheMiddleware {} ⟨true, [], false⟩
        ⟨"POST".data, "/u".data, []⟩).xCache = some "SKIP".data := by
  decide

/-- C7 amended: every bypassed request avoids the store and runs the
downstream handler, but the observable SKIP marker is attached only when
the bypass is due to the availability flag being false; a bypass due to
a non-GET method or the route's skip-flag attaches no cache-status
marker at all. -/
theorem cache_bypass_behaviour (opts : CacheOptions) (conn : RedisConn) (req : Request) :
    ((req.method ≠ "GET".data ∨ opts.skipCache = true) →
      (cacheMiddleware opts conn req).storeQueried = false ∧
      (cacheMiddleware opts conn req).handlerInvoked = true ∧
      (cacheMiddleware opts conn req).xCache = none) ∧
    (req.method = "GET".data → opts.skipCache = false → conn.available = false →
      (cacheMiddleware opts conn req).storeQueried = false ∧
      (cacheMiddleware opts conn req).handlerInvoked = true ∧
      (cacheMiddleware opts conn req).xCache = some "SKIP".data) := by
  constructor
  · intro h
    have hcm : cacheMiddleware opts conn req = ⟨none, none, true, false, none, false, false⟩ := by
      rw [cacheMiddleware]
      rcases h with h | h
      · rw [if_pos (Or.inl h)]
      · rw [if_pos (Or.inr (by simp [h]))]
    simp [hcm]
  · intro hm hs ha
    have hcm : cacheMiddleware opts conn req =
        ⟨some "SKIP".data, none, true, false, none, false, false⟩ := by
      rw [cacheMiddleware]
      rw [if_neg (by simp [hm, hs]), if_pos (by simp [ha])]
    simp [hcm]

/-- C7 amended witness: a store-unavailable GET is marked SKIP. -/
theorem cache_bypass_behaviour_witness :
    (cacheMiddleware {} ⟨false, [], false⟩
        ⟨"GET".data, "/u".data, []⟩).storeQueried = false ∧
    (cacheMiddleware {} ⟨false, [], false⟩
        ⟨"GET".data, "/u".data, []⟩).handlerInvoked = true ∧
    (cacheMiddleware {} ⟨false, [], false⟩
        ⟨"GET".data, "/u".data, []⟩).xCache = some "SKIP".data :=
  (cache_bypass_behaviour {} ⟨false, [], false⟩
    ⟨"GET".data, "/u".data, []⟩).2 rfl rfl rfl

/-- C8: a POST or PATCH request passing through the middleware receives
neither a cache-status marker nor a cache-key marker. -/
theorem post_patch_no_cache_markers (opts : CacheOptions) (conn : RedisConn) (req : Request)
    (h : req.method = "POST".data ∨ req.method = "PATCH".data) :
    (cacheMiddleware opts conn req).xCache = none ∧
    (cacheMiddleware opts conn req).xCacheKey = none := by
  have hne : req.method ≠ "GET".data := by
    rcases h with h | h <;> rw [h] <;> decide
  have hcm : cacheMiddleware opts conn req = ⟨none, none, true, false, none, false, false⟩ := by
    rw [cacheMiddleware, if_pos (Or.inl hne)]
  simp [hcm]

/-- C8 witness: a concrete PATCH request. -/
theorem post_patch_no_cache_markers_witness :
    (cacheMiddleware {} ⟨true, [], false⟩ ⟨"PATCH".data, "/u".data, []⟩).xCache = none ∧
    (cacheMiddleware {} ⟨true, [], false⟩ ⟨"PATCH".data, "/u".data, []⟩).xCacheKey = none :=
  post_patch_no_cache_markers {} ⟨true, [], false⟩ ⟨"PATCH".data, "/u".data, []⟩
    (Or.inr rfl)

/-- C9: the scheduled store write is guarded by the availability flag at
the moment the handler's payload is emitted — when that flag is false no
write happens, on any request, so the store is never written while
marked unavailable. -/
theorem no_write_when_unavailable_at_emit (opts : CacheOptions) (conn : RedisConn)
    (req : Request) (d : Str) :
    (handleRequest opts conn req d false).storeAfter = conn.entries := by
  rw [handleRequest]
  by_cases h : (cacheMiddleware opts conn req).handlerInvoked <;> simp [h]

/-- C10: when the cache lookup of a cacheable GET throws, the
response-capturing `res.json` override is not installed, so the
handler's payload is never written and the store is unchanged by the
request, whatever the handler emits and whatever the flag then says. -/
theorem lookup_error_no_capture (opts : CacheOptions) (conn : RedisConn) (req : Request)
    (hm : req.method = "GET".data) (hs : opts.skipCache = false)
    (ha : conn.available = true) (hg : conn.getThrows = true) :
    (cacheMiddleware opts conn req).jsonOverridden = false ∧
    ∀ (d : Str) (av : Bool), (handleRequest opts conn req d av).storeAfter = conn.entries := by
  have hcm : cacheMiddleware opts conn req =
      ⟨some "ERROR".data, none, true, false, none, true, true⟩ := by
    rw [cacheMiddleware]
    rw [if_neg (by simp [hm, hs]), if_neg (by simp [ha])]
    simp [hg]
  refine ⟨by simp [hcm], fun d av => ?_⟩
  rw [handleRequest]
  simp [hcm]

/-- C10 witness: a concrete GET against a store whose lookup throws. -/
theorem lookup_error_no_capture_witness :
    (cacheMiddleware {} ⟨true, [], true⟩
        ⟨"GET".data, "/u".data, []⟩).jsonOverridden = false ∧
    ∀ (d : Str) (av : Bool),
      (handleRequest {} ⟨true, [], true⟩ ⟨"GET".data, "/u".data, []⟩ d av).storeAfter = [] :=
  lookup_error_no_capture {} ⟨true, [], true⟩ ⟨"GET".data, "/u".data, []⟩
    rfl rfl rfl rfl

/-- C5 counterexample: against an available store whose `info` commands
throw, `getCacheStats` does not return a statistics record — the caught
error is rethrown. -/
theorem getCacheStats_throws :
    getCacheStats ⟨true, true, [], [], []⟩ = .error () := rfl

/-- C5 amended: when the store is unavailable `getCacheStats` returns
the degraded record — zero keys, the memory-usage text "unavailable",
hit rate zero — without contacting the store; but when the store is
available and an `info` command throws, the failure is logged and
rethrown to the caller. -/
theorem getCacheStats_degraded_or_rethrow (conn : StatsConn) :
    (conn.available = false →
      getCacheStats conn = .ok ⟨0, "unavailable".data, some 0⟩) ∧
    (conn.available = true → conn.infoThrows = true →
      getCacheStats conn = .error ()) := by
  constructor
  · intro h
    rw [getCacheStats, if_pos (by simp [h])]
  · intro ha hi
    rw [getCacheStats, if_neg (by simp [ha]), if_pos hi]

/-- C5 amended witness: a concrete unavailable store yields the degraded
record. -/
theorem getCacheStats_degraded_or_rethrow_witness :
    getCacheStats ⟨false, false, [], [], []⟩ = .ok ⟨0, "unavailable".data, some 0⟩ :=
  (getCacheStats_degraded_or_rethrow ⟨false, false, [], [], []⟩).1 rfl

/-- C6 counterexample: against an available store whose key enumeration
throws, `invalidateCache` propagates the error to its caller instead of
absorbing it. -/
theorem invalidateCache_propagates :
    invalidateCache ⟨true, .error (), .ok 0⟩ "api:*".data = .error () := rfl

/-- C6 amended: an unavailable store makes `invalidateCache` log a
warning and return 0, and an empty enumeration returns 0; but a store
failure during enumeration or deletion is logged and rethrown to the
caller rather than absorbed. -/
theorem invalidateCache_behaviour (conn : InvConn) (pat : Str) :
    (conn.available = false → invalidateCache conn pat = .ok 0) ∧
    (conn.available = true → ∀ e, conn.keysOutcome = .error e →
      invalidateCache conn pat = .error e) ∧
    (conn.available = true → conn.keysOutcome = .ok [] →
      invalidateCache conn pat = .ok 0) ∧
    (conn.available = true → ∀ k ks, conn.keysOutcome = .ok (k :: ks) →
      invalidateCache conn pat = conn.delOutcome) := by
  refine ⟨?_, ?_, ?_, ?_⟩
  · intro h
    rw [invalidateCache, if_pos (by simp [h])]
  · intro ha e he
    rw [invalidateCache, if_neg (by simp [ha]), he]
  · intro ha he
    rw [invalidateCache, if_neg (by simp [ha]), he]
    simp
  · intro ha k ks he
    rw [invalidateCache, if_neg (by simp [ha]), he]
    simp only [List.length_cons]
    rw [if_neg (by simp)]
    cases conn.delOutcome <;> rfl

/-- C6 amended witness: a concrete available store whose deletion throws
propagates the error. -/
theorem invalidateCache_behaviour_witness :
    invalidateCache ⟨true, .ok ["api:GET:/u".data], .error ()⟩ "api:*".data = .error () :=
  (invalidateCache_behaviour ⟨true, .ok ["api:GET:/u".data], .error ()⟩
    "api:*".data).2.2.2 rfl "api:GET:/u".data [] rfl

end Spec2Proof
